import Mathlib

/-!
# Verification of `email2student.py`

A shallow embedding of the single-file Python program `email2student.py`,
which resolves a batch of email addresses to student LDAP records and
prints them in CSV form.  Pure string manipulation is translated to Lean
functions over `String`/`List Char`; the imperative `main` pipeline is
translated into a function producing an explicit `RunResult` record
(exit code, stdout lines, stderr lines, connection state), with the
directory service passed in as a function parameter.  Byte-string
attribute values are modelled as already-decoded `String`s (the
`.decode("utf-8")` step is the identity in this model).
-/

set_option autoImplicit false

/-- Python's `str` whitespace characters (ASCII fragment), as used by
`str.strip()` / `str.rstrip()` in the script. -/
def pyIsSpace (c : Char) : Bool :=
  c = ' ' || c = '\t' || c = '\n' || c = '\r' || c = '\x0b' || c = '\x0c'

/-- Python `line.strip()` from the list comprehensions reading the input file and
stdin: drop leading and trailing whitespace. -/
def pyStrip (s : String) : String :=
  ⟨((s.data.dropWhile pyIsSpace).reverse.dropWhile pyIsSpace).reverse⟩

/-- Python `fn.rstrip()` in `display_results`: drop trailing whitespace only. -/
def pyRstrip (cs : List Char) : List Char :=
  (cs.reverse.dropWhile pyIsSpace).reverse

/-! ## The email regex `^[\w\-.]+@(?:[\w-]+\.)+[\w-]{2,4}$`

The regular expression `email_regex` is compiled by hand into an
executable matcher.  `\w` is modelled as an ASCII word character
(alphanumeric or underscore; the Unicode extension of `\w` is outside the
model).  `re.match` with a pattern anchored by `$` also accepts a single
trailing newline (Python's `$` matches just before a final newline),
which the matcher reproduces. -/

/-- The class `\w`: a word character (ASCII model). -/
def isWordChar (c : Char) : Bool := c.isAlphanum || c = '_'

/-- The local-part class `[\w\-.]`. -/
def isLocalChar (c : Char) : Bool := isWordChar c || c = '-' || c = '.'

/-- The domain-label class `[\w-]` (note: hyphen included). -/
def isDomChar (c : Char) : Bool := isWordChar c || c = '-'

/-- Split a character list on every occurrence of `sep`, returning the
first piece and the remaining pieces (so the result is never empty). -/
def splitOnCharNE (sep : Char) : List Char → List Char × List (List Char)
  | [] => ([], [])
  | c :: cs =>
    let r := splitOnCharNE sep cs
    if c = sep then ([], r.1 :: r.2) else (c :: r.1, r.2)

/-- Split a character list on every occurrence of `sep`. -/
def splitOnChar (sep : Char) (cs : List Char) : List (List Char) :=
  (splitOnCharNE sep cs).1 :: (splitOnCharNE sep cs).2

/-- Join pieces with a single `sep` between consecutive pieces
(inverse of `splitOnChar`). -/
def intercalateChar (sep : Char) : List (List Char) → List Char
  | [] => []
  | [p] => p
  | p :: ps => p ++ sep :: intercalateChar sep ps

/-- The domain tail of the regex after the first mandatory label:
either the final label `[\w-]{2,4}` alone, or another label `[\w-]+`
followed by a dot and the rest. -/
def finalOk : List (List Char) → Bool
  | [] => false
  | [f] => decide (2 ≤ f.length) && decide (f.length ≤ 4) && f.all isDomChar
  | p :: rest => !p.isEmpty && p.all isDomChar && finalOk rest

/-- The domain part `(?:[\w-]+\.)+[\w-]{2,4}` applied to the pieces of
the domain split on `.`: at least one leading label, then the final
label of two to four `[\w-]` characters. -/
def domainOk : List (List Char) → Bool
  | [] => false
  | [_] => false
  | p :: rest => !p.isEmpty && p.all isDomChar && finalOk rest

/-- The anchored body of `email_regex` (without the trailing-newline
tolerance of `$`): exactly one `@`, a non-empty `[\w\-.]+` local part,
and a domain of at least two dot-separated labels whose last label has
two to four `[\w-]` characters. -/
def emailRegexCore (cs : List Char) : Bool :=
  match splitOnChar '@' cs with
  | [l, d] => !l.isEmpty && l.all isLocalChar && domainOk (splitOnChar '.' d)
  | _ => false

/-- Python `re.match(email_regex, s)` viewed as a Boolean: the anchored body
matches the whole string, or the string ends in a newline and the body
matches everything before it (Python `$` semantics). -/
def emailRegexMatch (s : String) : Bool :=
  emailRegexCore s.data ||
    (match s.data.reverse with
     | c :: rest => c == '\n' && emailRegexCore rest.reverse
     | [] => false)

/-! ## `gecos.split(" ", 2)` and the record mapper -/

/-- Split at the first literal space, if any: returns the part before
the first space and everything after it. -/
def splitFirstSpace : List Char → Option (List Char × List Char)
  | [] => none
  | c :: cs =>
    if c = ' ' then some ([], cs)
    else
      match splitFirstSpace cs with
      | none => none
      | some (a, b) => some (c :: a, b)

/-- Python's `s.split(" ", 2)`: split on the first two literal spaces
only, yielding one, two or three pieces. -/
def pySplitSpace2 (s : String) : List String :=
  match splitFirstSpace s.data with
  | none => [s]
  | some (a, r) =>
    match splitFirstSpace r with
    | none => [⟨a⟩, ⟨r⟩]
    | some (b, c) => [⟨a⟩, ⟨b⟩, ⟨c⟩]

/-- The statement `index, sn, fn = gecos.split(" ", 2); fn = fn.rstrip()`: the
three-way unpacking succeeds only when the split yields exactly three
pieces; otherwise the `ValueError` is modelled as `none`. -/
def gecosSplit (g : String) : Option (String × String × String) :=
  match pySplitSpace2 g with
  | [i, sn, fn] => some (i, sn, ⟨pyRstrip fn.data⟩)
  | _ => none

/-- A raw LDAP entry: each required attribute is a list of (decoded)
values; `entry.get(attr, [])[0]` is `List.head?`, with the `IndexError`
on a missing attribute modelled as `none`. -/
structure Entry where
  mail : List String
  gecos : List String
  uid : List String
deriving DecidableEq

/-- One iteration of the `display_results` loop body: extract the first
`mail`, `gecos` and `uid` values, split the gecos; `none` models the
unhandled `IndexError`/`ValueError`. -/
def mapEntry (e : Entry) : Option (String × String × String × String × String) :=
  match e.mail.head? with
  | none => none
  | some mail =>
    match e.gecos.head? with
    | none => none
    | some gecos =>
      match e.uid.head? with
      | none => none
      | some uid =>
        match gecosSplit gecos with
        | none => none
        | some (i, sn, fn) => some (i, sn, fn, uid, mail)

/-- The f-string `f"{index},{sn},{fn},{uid},{mail}"`. -/
def csvLine : String × String × String × String × String → String
  | (i, sn, fn, uid, mail) => i ++ "," ++ sn ++ "," ++ fn ++ "," ++ uid ++ "," ++ mail

/-- The loop of `display_results`: print one CSV line per entry, aborting at the
first entry that fails to map.  Returns the lines already printed and
whether the loop ran to completion. -/
def display_results : List Entry → List String × Bool
  | [] => ([], true)
  | e :: es =>
    match mapEntry e with
    | none => ([], false)
    | some row =>
      match display_results es with
      | (lines, ok) => (csvLine row :: lines, ok)

/-! ## Filter building -/

/-- Python's `sep.join(pieces)`. -/
def pyJoin (sep : String) : List String → String
  | [] => ""
  | [a] => a
  | a :: rest => a ++ sep ++ pyJoin sep rest

/-- The function `parse_list_of_emails_into_ldap_filter`. -/
def parse_list_of_emails_into_ldap_filter (emails : List String) : String :=
  "(|(mail=" ++ pyJoin ")(mail=" emails ++ "))"

/-! ## Address collection and the main pipeline -/

/-- The two optional command-line arguments (`argparse` yields `None`
when a flag is absent, `[]` for `-e` given with zero addresses). -/
structure Args where
  input_file : Option String
  email_list : Option (List String)
deriving DecidableEq

/-- Python truthiness of `args.input_file` (`None` and `""` are falsy). -/
def pyTruthyStr : Option String → Bool
  | none => false
  | some s => s != ""

/-- Python truthiness of `args.email_list` (`None` and `[]` are falsy). -/
def pyTruthyList : Option (List String) → Bool
  | none => false
  | some l => !l.isEmpty

/-- The source-selection part of `get_emails_from_file_or_from_stdin`:
`if args.input_file: ... elif args.email_list: ... else: ...`, with the
file and stdin modelled as lists of raw lines, stripped per line. -/
def get_emails_from_file_or_from_stdin (args : Args)
    (fileLines stdinLines : List String) : List String :=
  if pyTruthyStr args.input_file then fileLines.map pyStrip
  else if pyTruthyList args.email_list then args.email_list.getD []
  else stdinLines.map pyStrip

/-- Observable outcome of one run of `main`: exit code, the CSV lines
written to stdout, the diagnostics written to stderr, whether
`ldap.initialize` was reached and whether `conn.unbind()` was executed,
and the search filter if one was built. -/
structure RunResult where
  exitCode : Nat
  stdoutLines : List String
  stderrLines : List String
  connOpened : Bool
  unbound : Bool
  filterBuilt : Option String
deriving DecidableEq

/-- The reconciliation block at the end of `main`: triggered only when
the entry count differs from the requested count; collects the first
`mail` value of every entry and warns about each requested address not
among them.  (In the reachable state every entry has a `mail` value,
`display_results` having succeeded, so `filterMap` loses nothing.) -/
def reconcile (emails : List String) (results : List Entry) : List String :=
  if results.length ≠ emails.length then
    "WARNING! Some email addresses were not found in the LDAP database." ::
      (emails.filter
        (fun email => !(results.filterMap (fun r => r.mail.head?)).contains email)).map
        (fun email => "Missing email address: " ++ email)
  else []

/-- The function `main`, with the directory search passed in as `search` (an `.error`
models an LDAP exception escaping `conn.search_s`).  `validate_emails`
exits at the first address failing the regex; `conn.unbind()` runs only
on the straight-line path after a successful search; a mapping failure
in `display_results` aborts with the interpreter's exit status 1 after
the earlier rows are already on stdout. -/
def runMain (args : Args) (fileLines stdinLines : List String)
    (search : String → Except String (List Entry)) : RunResult :=
  let emails := get_emails_from_file_or_from_stdin args fileLines stdinLines
  match emails.find? (fun e => !emailRegexMatch e) with
  | some bad =>
    ⟨1, [], ["Invalid email address: " ++ bad], false, false, none⟩
  | none =>
    let f := parse_list_of_emails_into_ldap_filter emails
    match search f with
    | Except.error msg =>
      ⟨1, [], [msg], true, false, some f⟩
    | Except.ok results =>
      match display_results results with
      | (rows, false) =>
        ⟨1, rows, ["Unhandled exception while mapping a directory entry"],
          true, true, some f⟩
      | (rows, true) =>
        ⟨0, rows, reconcile emails results, true, true, some f⟩

/-! ## Basic string lemmas -/

theorem string_eq_of_data {a b : String} (h : a.data = b.data) : a = b := by
  cases a; cases b; cases h; rfl

theorem string_data_append (s t : String) : (s ++ t).data = s.data ++ t.data := by
  cases s; cases t; rfl

/-! ## Lemmas about `splitFirstSpace` -/

theorem sfs_none_iff (cs : List Char) : splitFirstSpace cs = none ↔ ' ' ∉ cs := by
  induction cs with
  | nil => simp [splitFirstSpace]
  | cons c cs ih =>
    by_cases hc : c = ' '
    · subst hc
      simp [splitFirstSpace]
    · rw [splitFirstSpace, if_neg hc]
      cases h : splitFirstSpace cs with
      | none =>
        have hmem : ' ' ∉ cs := ih.mp h
        have hcc : ' ' ∉ c :: cs := by
          intro hm
          rcases List.mem_cons.mp hm with h' | h'
          · exact hc h'.symm
          · exact hmem h'
        simp [h, hcc]
      | some p =>
        have hmem : ' ' ∈ cs := by
          by_contra hn
          rw [ih.mpr hn] at h
          cases h
        simp [h, List.mem_cons, hmem]

theorem sfs_append (a b : List Char) (h : ' ' ∉ a) :
    splitFirstSpace (a ++ ' ' :: b) = some (a, b) := by
  induction a with
  | nil => simp [splitFirstSpace]
  | cons c cs ih =>
    have hc : ¬ c = ' ' := by
      intro e
      exact h (by rw [e]; exact List.mem_cons_self _ _)
    rw [List.cons_append, splitFirstSpace, if_neg hc,
      ih (fun hm => h (List.mem_cons_of_mem _ hm))]

theorem sfs_some (cs a b : List Char) (h : splitFirstSpace cs = some (a, b)) :
    cs = a ++ ' ' :: b ∧ ' ' ∉ a := by
  induction cs generalizing a b with
  | nil => simp [splitFirstSpace] at h
  | cons c cs ih =>
    by_cases hc : c = ' '
    · subst hc
      rw [splitFirstSpace, if_pos rfl] at h
      obtain ⟨rfl, rfl⟩ := Prod.mk.injEq .. ▸ (Option.some.inj h)
      exact ⟨rfl, List.not_mem_nil _⟩
    · rw [splitFirstSpace, if_neg hc] at h
      cases h2 : splitFirstSpace cs with
      | none => rw [h2] at h; cases h
      | some p =>
        obtain ⟨a', b'⟩ := p
        rw [h2] at h
        obtain ⟨ha, rfl⟩ := Prod.mk.injEq .. ▸ (Option.some.inj h)
        obtain ⟨hcs, hna⟩ := ih a' b' h2
        subst hcs
        refine ⟨by rw [← ha]; simp, ?_⟩
        rw [← ha]
        intro hm
        rcases List.mem_cons.mp hm with h' | h'
        · exact hc h'.symm
        · exact hna h'

/-- Python `fn.rstrip()` at `String` level. -/
def pyRstripStr (s : String) : String := ⟨pyRstrip s.data⟩

/-- C1: the Record Mapper's gecos decomposition.  Any gecos with at
least two spaces factors uniquely as `a ++ " " ++ b ++ " " ++ c` with
`a`, `b` space-free; the split yields `a`, `b` and `c` with trailing
whitespace removed from `c` only. -/
theorem gecosSplit_three_fields (a b c : String)
    (ha : ' ' ∉ a.data) (hb : ' ' ∉ b.data) :
    gecosSplit (a ++ " " ++ b ++ " " ++ c) = some (a, b, pyRstripStr c) := by
  have hdata : (a ++ " " ++ b ++ " " ++ c).data
      = a.data ++ ' ' :: (b.data ++ ' ' :: c.data) := by
    simp [string_data_append, List.append_assoc]
  have h1 : splitFirstSpace (a.data ++ ' ' :: (b.data ++ ' ' :: c.data))
      = some (a.data, b.data ++ ' ' :: c.data) :=
    sfs_append _ _ ha
  have h2 : splitFirstSpace (b.data ++ ' ' :: c.data) = some (b.data, c.data) :=
    sfs_append _ _ hb
  simp [gecosSplit, pySplitSpace2, hdata, h1, h2, pyRstripStr]

/-- C1 witness: the round-trip example `"42 Smith Jane Q"`. -/
theorem gecosSplit_three_fields_witness :
    gecosSplit "42 Smith Jane Q" = some ("42", "Smith", "Jane Q") := by
  have h := gecosSplit_three_fields "42" "Smith" "Jane Q" (by decide) (by decide)
  have e1 : ("42" : String) ++ " " ++ "Smith" ++ " " ++ "Jane Q" = "42 Smith Jane Q" := by
    decide
  have e2 : pyRstripStr "Jane Q" = "Jane Q" := by decide
  rw [e1, e2] at h
  exact h

/-- Python's whitespace-delimited tokenisation (`s.split()` with no
separator): the non-empty pieces of the split on spaces. -/
def spaceTokens (s : String) : List String :=
  ((splitOnChar ' ' s.data).filter (fun p => !p.isEmpty)).map (fun p => (⟨p⟩ : String))

/-- C6 counterexample: `"a b"` has two space-separated tokens, yet the
three-way unpacking of `split(" ", 2)` fails on it, so the decomposition
is fatal — refuting \"every gecos containing at least two
space-separated tokens is decomposed without error\". -/
theorem gecos_two_tokens_fatal_cx :
    spaceTokens "a b" = ["a", "b"] ∧ 2 ≤ (spaceTokens "a b").length ∧
      gecosSplit "a b" = none := by
  decide

/-- C6 amended: the decomposition is fatal exactly for gecos values
containing fewer than two literal space characters. -/
theorem gecosSplit_fatal_iff (g : String) :
    gecosSplit g = none ↔ g.data.count ' ' < 2 := by
  cases h1 : splitFirstSpace g.data with
  | none =>
    have h1' : ' ' ∉ g.data := (sfs_none_iff _).mp h1
    have hc : g.data.count ' ' = 0 := List.count_eq_zero.mpr h1'
    simp [gecosSplit, pySplitSpace2, h1, hc]
  | some p =>
    obtain ⟨a, r⟩ := p
    obtain ⟨hg, hna⟩ := sfs_some _ _ _ h1
    have hca : a.count ' ' = 0 := List.count_eq_zero.mpr hna
    cases h2 : splitFirstSpace r with
    | none =>
      have hr : r.count ' ' = 0 := List.count_eq_zero.mpr ((sfs_none_iff _).mp h2)
      have hc : g.data.count ' ' = 1 := by
        rw [hg]
        simp [List.count_append, List.count_cons, hca, hr]
      simp [gecosSplit, pySplitSpace2, h1, h2, hc]
    | some q =>
      obtain ⟨b, c⟩ := q
      obtain ⟨hrr, _⟩ := sfs_some _ _ _ h2
      have hc : 2 ≤ g.data.count ' ' := by
        rw [hg, hrr]
        simp [List.count_append, List.count_cons]
        omega
      have hnc : ¬ (g.data.count ' ' < 2) := by omega
      simp [gecosSplit, pySplitSpace2, h1, h2, hnc]

/-! ## The Filter Builder -/

theorem string_append_assoc (a b c : String) : a ++ b ++ c = a ++ (b ++ c) := by
  apply string_eq_of_data
  simp [string_data_append, List.append_assoc]

/-- Modelled from the claim's words: one `(mail=<addr>)` equality clause
per address, concatenated in input order. -/
def mailClauses : List String → String
  | [] => ""
  | a :: rest => "(mail=" ++ a ++ ")" ++ mailClauses rest

theorem join_mail_clauses (rest : List String) (a : String) :
    "(mail=" ++ pyJoin ")(mail=" (a :: rest) ++ ")" = mailClauses (a :: rest) := by
  induction rest generalizing a with
  | nil =>
    apply string_eq_of_data
    simp [pyJoin, mailClauses, string_data_append]
  | cons b rest ih =>
    have hdata := congrArg String.data (ih b)
    apply string_eq_of_data
    simp only [pyJoin, mailClauses, string_data_append, List.append_assoc] at hdata ⊢
    have hsep : ([')', '(', 'm', 'a', 'i', 'l', '='] : List Char)
        = [')'] ++ ['(', 'm', 'a', 'i', 'l', '='] := rfl
    rw [hsep]
    simp only [List.append_assoc]
    rw [hdata]

/-- C3: for every non-empty address list the filter is exactly the
OR-joined concatenation of one `(mail=...)` clause per address, in input
order, with the addresses spliced in verbatim (no escaping). -/
theorem ldap_filter_or_of_clauses (emails : List String) (h : emails ≠ []) :
    parse_list_of_emails_into_ldap_filter emails = "(|" ++ mailClauses emails ++ ")" := by
  cases emails with
  | nil => cases h rfl
  | cons a rest =>
    unfold parse_list_of_emails_into_ldap_filter
    have hpre : ("(|(mail=" : String) = "(|" ++ "(mail=" := by decide
    rw [hpre]
    rw [string_append_assoc "(|" "(mail=" (pyJoin ")(mail=" (a :: rest)), string_append_assoc]
    rw [string_append_assoc "(mail=" (pyJoin ")(mail=" (a :: rest)) "))"]
    have hparen : ("))" : String) = ")" ++ ")" := by decide
    rw [hparen]
    rw [← string_append_assoc (pyJoin ")(mail=" (a :: rest)) ")" ")"]
    rw [← string_append_assoc "(mail=" (pyJoin ")(mail=" (a :: rest) ++ ")") ")"]
    rw [← string_append_assoc "(mail=" (pyJoin ")(mail=" (a :: rest)) ")"]
    rw [join_mail_clauses rest a]
    rw [string_append_assoc]

/-- C3 witness: a concrete two-address list. -/
theorem ldap_filter_or_of_clauses_witness :
    parse_list_of_emails_into_ldap_filter ["a@b.cd", "e@f.gh"]
      = "(|(mail=a@b.cd)(mail=e@f.gh))" := by
  have h := ldap_filter_or_of_clauses ["a@b.cd", "e@f.gh"] (by decide)
  exact h.trans (by decide)

/-! ## Lemmas about `splitOnChar` / `intercalateChar` -/

theorem sNE_no_sep (sep : Char) (cs : List Char) (h : sep ∉ cs) :
    splitOnCharNE sep cs = (cs, []) := by
  induction cs with
  | nil => rfl
  | cons c cs ih =>
    have hc : ¬ c = sep := by
      intro e
      exact h (by rw [e]; exact List.mem_cons_self _ _)
    simp only [splitOnCharNE]
    rw [ih (fun hm => h (List.mem_cons_of_mem _ hm))]
    simp [hc]

theorem sNE_sep_split (sep : Char) (a b : List Char) (h : sep ∉ a) :
    splitOnCharNE sep (a ++ sep :: b) =
      (a, (splitOnCharNE sep b).1 :: (splitOnCharNE sep b).2) := by
  induction a with
  | nil => simp [splitOnCharNE]
  | cons c a ih =>
    have hc : ¬ c = sep := by
      intro e
      exact h (by rw [e]; exact List.mem_cons_self _ _)
    rw [List.cons_append]
    simp only [splitOnCharNE]
    rw [ih (fun hm => h (List.mem_cons_of_mem _ hm))]
    simp [hc]

theorem intercalate_splitOnChar (sep : Char) (cs : List Char) :
    intercalateChar sep (splitOnChar sep cs) = cs := by
  unfold splitOnChar
  induction cs with
  | nil => rfl
  | cons c cs ih =>
    by_cases hc : c = sep
    · have hs : splitOnCharNE sep (c :: cs)
          = ([], (splitOnCharNE sep cs).1 :: (splitOnCharNE sep cs).2) := by
        simp [splitOnCharNE, hc]
      rw [hs]
      show [] ++ sep ::
        intercalateChar sep ((splitOnCharNE sep cs).1 :: (splitOnCharNE sep cs).2) = c :: cs
      rw [ih, hc]
      rfl
    · have hs : splitOnCharNE sep (c :: cs)
          = (c :: (splitOnCharNE sep cs).1, (splitOnCharNE sep cs).2) := by
        simp [splitOnCharNE, hc]
      rw [hs]
      cases h2 : (splitOnCharNE sep cs).2 with
      | nil =>
        rw [h2] at ih
        have ih' : (splitOnCharNE sep cs).1 = cs := ih
        show c :: (splitOnCharNE sep cs).1 = c :: cs
        rw [ih']
      | cons q qs =>
        rw [h2] at ih
        have ih' : (splitOnCharNE sep cs).1 ++ sep :: intercalateChar sep (q :: qs) = cs := ih
        show (c :: (splitOnCharNE sep cs).1) ++ sep :: intercalateChar sep (q :: qs) = c :: cs
        rw [List.cons_append, ih']

theorem splitOnChar_intercalate (sep : Char) (parts : List (List Char))
    (hne : parts ≠ []) (h : ∀ p ∈ parts, sep ∉ p) :
    splitOnChar sep (intercalateChar sep parts) = parts := by
  induction parts with
  | nil => cases hne rfl
  | cons p ps ih =>
    cases ps with
    | nil =>
      have hp : sep ∉ p := h p (List.mem_cons_self _ _)
      simp [intercalateChar, splitOnChar, sNE_no_sep sep p hp]
    | cons q qs =>
      have hp : sep ∉ p := h p (List.mem_cons_self _ _)
      simp only [intercalateChar]
      unfold splitOnChar
      rw [sNE_sep_split sep p _ hp]
      have hrec := ih (by simp) (fun r hr => h r (List.mem_cons_of_mem _ hr))
      unfold splitOnChar at hrec
      rw [hrec]

theorem mem_intercalate (sep : Char) (parts : List (List Char)) (x : Char)
    (hx : x ∈ intercalateChar sep parts) : x = sep ∨ ∃ p ∈ parts, x ∈ p := by
  induction parts with
  | nil => simp [intercalateChar] at hx
  | cons p ps ih =>
    cases ps with
    | nil =>
      simp only [intercalateChar] at hx
      exact Or.inr ⟨p, List.mem_cons_self _ _, hx⟩
    | cons q qs =>
      simp only [intercalateChar] at hx
      rcases List.mem_append.mp hx with h' | h'
      · exact Or.inr ⟨p, List.mem_cons_self _ _, h'⟩
      · rcases List.mem_cons.mp h' with h'' | h''
        · exact Or.inl h''
        · rcases ih h'' with h3 | ⟨r, hr, hxr⟩
          · exact Or.inl h3
          · exact Or.inr ⟨r, List.mem_cons_of_mem _ hr, hxr⟩

/-! ## Characterising the regex matcher -/

theorem finalOk_iff (parts : List (List Char)) :
    finalOk parts = true ↔
      ∃ ps f, parts = ps ++ [f] ∧
        (∀ p ∈ ps, p ≠ [] ∧ p.all isDomChar = true) ∧
        2 ≤ f.length ∧ f.length ≤ 4 ∧ f.all isDomChar = true := by
  induction parts with
  | nil =>
    simp only [finalOk]
    constructor
    · intro h
      cases h
    · rintro ⟨ps, f, h, -⟩
      exact absurd h.symm (List.append_ne_nil_of_right_ne_nil ps (by simp))
  | cons p rest ih =>
    cases rest with
    | nil =>
      constructor
      · intro h
        simp only [finalOk, Bool.and_eq_true, decide_eq_true_eq] at h
        exact ⟨[], p, rfl, by simp, h.1.1, h.1.2, h.2⟩
      · rintro ⟨ps, f, heq, hps, h2, h4, hall⟩
        cases ps with
        | nil =>
          simp only [List.nil_append, List.cons.injEq] at heq
          obtain ⟨rfl, -⟩ := heq
          simp only [finalOk, Bool.and_eq_true, decide_eq_true_eq]
          exact ⟨⟨h2, h4⟩, hall⟩
        | cons x ps' =>
          simp only [List.cons_append, List.cons.injEq] at heq
          exact absurd heq.2.symm (List.append_ne_nil_of_right_ne_nil ps' (by simp))
    | cons q rest' =>
      have hstep : finalOk (p :: q :: rest')
          = (!p.isEmpty && p.all isDomChar && finalOk (q :: rest')) := rfl
      constructor
      · intro h
        rw [hstep] at h
        simp only [Bool.and_eq_true, Bool.not_eq_true'] at h
        obtain ⟨⟨hp1, hp2⟩, hrest⟩ := h
        obtain ⟨ps', f, heq, hps', hf⟩ := ih.mp hrest
        refine ⟨p :: ps', f, by rw [heq]; rfl, ?_, hf⟩
        intro r hr
        rcases List.mem_cons.mp hr with rfl | hr'
        · exact ⟨by simpa using hp1, hp2⟩
        · exact hps' r hr'
      · rintro ⟨ps, f, heq, hps, hf⟩
        cases ps with
        | nil =>
          simp only [List.nil_append, List.cons.injEq] at heq
          exact absurd heq.2 (by simp)
        | cons x ps' =>
          simp only [List.cons_append, List.cons.injEq] at heq
          obtain ⟨rfl, heq'⟩ := heq
          rw [hstep]
          simp only [Bool.and_eq_true, Bool.not_eq_true']
          have hx := hps p (List.mem_cons_self _ _)
          refine ⟨⟨by simpa using hx.1, hx.2⟩, ?_⟩
          exact ih.mpr ⟨ps', f, heq', fun r hr => hps r (List.mem_cons_of_mem _ hr), hf⟩

theorem domainOk_iff (parts : List (List Char)) :
    domainOk parts = true ↔
      ∃ ps f, parts = ps ++ [f] ∧ ps ≠ [] ∧
        (∀ p ∈ ps, p ≠ [] ∧ p.all isDomChar = true) ∧
        2 ≤ f.length ∧ f.length ≤ 4 ∧ f.all isDomChar = true := by
  cases parts with
  | nil =>
    simp only [domainOk]
    constructor
    · intro h
      cases h
    · rintro ⟨ps, f, h, -⟩
      exact absurd h.symm (List.append_ne_nil_of_right_ne_nil ps (by simp))
  | cons p rest =>
    cases rest with
    | nil =>
      simp only [domainOk]
      constructor
      · intro h
        cases h
      · rintro ⟨ps, f, heq, hne, -⟩
        cases ps with
        | nil => exact absurd rfl hne
        | cons x ps' =>
          simp only [List.cons_append, List.cons.injEq] at heq
          exact absurd heq.2.symm (List.append_ne_nil_of_right_ne_nil ps' (by simp))
    | cons q rest' =>
      have hstep : domainOk (p :: q :: rest')
          = (!p.isEmpty && p.all isDomChar && finalOk (q :: rest')) := rfl
      rw [hstep]
      constructor
      · intro h
        simp only [Bool.and_eq_true, Bool.not_eq_true'] at h
        obtain ⟨⟨hp1, hp2⟩, hrest⟩ := h
        obtain ⟨ps', f, heq, hps', hf⟩ := (finalOk_iff _).mp hrest
        refine ⟨p :: ps', f, by rw [heq]; rfl, by simp, ?_, hf⟩
        intro r hr
        rcases List.mem_cons.mp hr with rfl | hr'
        · exact ⟨by simpa using hp1, hp2⟩
        · exact hps' r hr'
      · rintro ⟨ps, f, heq, hne, hps, hf⟩
        cases ps with
        | nil => exact absurd rfl hne
        | cons x ps' =>
          simp only [List.cons_append, List.cons.injEq] at heq
          obtain ⟨rfl, heq'⟩ := heq
          simp only [Bool.and_eq_true, Bool.not_eq_true']
          have hx := hps p (List.mem_cons_self _ _)
          refine ⟨⟨by simpa using hx.1, hx.2⟩, ?_⟩
          exact (finalOk_iff _).mpr
            ⟨ps', f, heq', fun r hr => hps r (List.mem_cons_of_mem _ hr), hf⟩

/-- Modelled from the spec's words for the address shape
`local-part@domain-label(.domain-label)+`: a non-empty local part over
`[\w\-.]`, an `@`, at least one dot-separated leading label over `[\w-]`,
and a final label of two to four `[\w-]` characters.  (The claim's
stricter reading — final label over word characters only — is refuted
separately.) -/
def emailShape (cs : List Char) : Prop :=
  ∃ l ps f,
    cs = l ++ '@' :: intercalateChar '.' (ps ++ [f]) ∧
    l ≠ [] ∧ l.all isLocalChar = true ∧
    ps ≠ [] ∧ (∀ p ∈ ps, p ≠ [] ∧ p.all isDomChar = true) ∧
    2 ≤ f.length ∧ f.length ≤ 4 ∧ f.all isDomChar = true

theorem emailRegexCore_iff (cs : List Char) :
    emailRegexCore cs = true ↔ emailShape cs := by
  constructor
  · intro h
    unfold emailRegexCore at h
    cases hs : splitOnChar '@' cs with
    | nil => rw [hs] at h; cases h
    | cons l rest =>
      cases rest with
      | nil => rw [hs] at h; cases h
      | cons d rest2 =>
        cases rest2 with
        | cons x xs => rw [hs] at h; cases h
        | nil =>
          rw [hs] at h
          simp only [Bool.and_eq_true, Bool.not_eq_true'] at h
          obtain ⟨⟨hl1, hl2⟩, hdom⟩ := h
          have hcs : cs = l ++ '@' :: d := by
            have hi := intercalate_splitOnChar '@' cs
            rw [hs] at hi
            simpa [intercalateChar] using hi.symm
          obtain ⟨ps, f, hparts, hps, hlabels, h2, h4, hf⟩ := (domainOk_iff _).mp hdom
          have hd : d = intercalateChar '.' (ps ++ [f]) := by
            have hi := intercalate_splitOnChar '.' d
            rw [hparts] at hi
            exact hi.symm
          refine ⟨l, ps, f, ?_, ?_, hl2, hps, hlabels, h2, h4, hf⟩
          · rw [hcs, hd]
          · simpa using hl1
  · rintro ⟨l, ps, f, hcs, hl1, hl2, hps, hlabels, h2, h4, hf⟩
    have hchar : ∀ (x : Char), x ∈ intercalateChar '.' (ps ++ [f]) → isDomChar x = true ∨ x = '.' := by
      intro x hx
      rcases mem_intercalate '.' _ x hx with h' | ⟨p, hp, hin⟩
      · exact Or.inr h'
      · rcases List.mem_append.mp hp with hp' | hp'
        · exact Or.inl (List.all_eq_true.mp (hlabels p hp').2 x hin)
        · have : p = f := by simpa using hp'
          subst this
          exact Or.inl (List.all_eq_true.mp hf x hin)
  -- `List.all_eq_true` on `List.all` uses coerced membership; adjust below if needed
    have hlAt : '@' ∉ l := by
      intro hm
      have := List.all_eq_true.mp hl2 _ hm
      exact absurd this (by decide)
    have hdAt : '@' ∉ intercalateChar '.' (ps ++ [f]) := by
      intro hm
      rcases hchar '@' hm with h' | h'
      · exact absurd h' (by decide)
      · exact absurd h' (by decide)
    have hsplit : splitOnChar '@' cs = [l, intercalateChar '.' (ps ++ [f])] := by
      rw [hcs]
      unfold splitOnChar
      rw [sNE_sep_split '@' l _ hlAt, sNE_no_sep '@' _ hdAt]
    have hnodot : ∀ p ∈ ps ++ [f], '.' ∉ p := by
      intro p hp hin
      rcases List.mem_append.mp hp with hp' | hp'
      · have := List.all_eq_true.mp (hlabels p hp').2 _ hin
        exact absurd this (by decide)
      · have : p = f := by simpa using hp'
        subst this
        have := List.all_eq_true.mp hf _ hin
        exact absurd this (by decide)
    unfold emailRegexCore
    rw [hsplit]
    simp only [Bool.and_eq_true, Bool.not_eq_true']
    refine ⟨⟨?_, hl2⟩, ?_⟩
    · cases l with
      | nil => exact absurd rfl hl1
      | cons x xs => rfl
    · rw [splitOnChar_intercalate '.' (ps ++ [f]) (by simp) hnodot]
      exact (domainOk_iff _).mpr ⟨ps, f, rfl, hps, hlabels, h2, h4, hf⟩

/-- C8 counterexample: `"a@ex.co-"` passes validation, yet its final
domain label `co-` contains a hyphen, which is not a word character —
refuting \"every accepted address has a final label made only of word
characters (no hyphen)\". -/
theorem final_label_hyphen_cx :
    emailRegexMatch "a@ex.co-" = true ∧
      (splitOnChar '.' ("a@ex.co-").data).getLastD [] = ['c', 'o', '-'] ∧
      (['c', 'o', '-'].all isWordChar) = false := by
  decide

/-- C8 amended: an address passes validation exactly when it has the
shape `local-part@domain-label(.domain-label)+` with a final label of
two to four characters drawn from word characters *or hyphen*
(`[\w-]`), or is such a string followed by a single trailing newline
(an artefact of the `$` anchor in `re.match`). -/
theorem emailRegexMatch_iff (s : String) :
    emailRegexMatch s = true ↔
      (emailShape s.data ∨ ∃ t, s.data = t ++ ['\n'] ∧ emailShape t) := by
  unfold emailRegexMatch
  rw [Bool.or_eq_true]
  refine or_congr (emailRegexCore_iff s.data) ?_
  cases hr : s.data.reverse with
  | nil =>
    have hnil : s.data = [] := by
      have := congrArg List.reverse hr
      simpa using this
    constructor
    · intro h
      cases h
    · rintro ⟨t, ht, -⟩
      rw [hnil] at ht
      exact absurd ht.symm (List.append_ne_nil_of_right_ne_nil t (by simp))
  | cons c rest =>
    have hs : s.data = rest.reverse ++ [c] := by
      have := congrArg List.reverse hr
      simpa using this
    constructor
    · intro h
      simp only [Bool.and_eq_true, beq_iff_eq] at h
      obtain ⟨hc', hcore⟩ := h
      subst hc'
      exact ⟨rest.reverse, hs, (emailRegexCore_iff _).mp hcore⟩
    · rintro ⟨t, ht, hshape⟩
      have heq : t ++ ['\n'] = rest.reverse ++ [c] := by rw [← ht, hs]
      obtain ⟨ht', hc⟩ := List.append_inj' heq rfl
      have hc' : c = '\n' := by simpa using hc.symm
      subst hc'
      subst ht'
      simp only [Bool.and_eq_true, beq_self_eq_true, true_and]
      exact (emailRegexCore_iff _).mpr hshape

/-! ## Address collection -/

theorem get_emails_file (args : Args) (fl sl : List String) (path : String)
    (hp : args.input_file = some path) (hpne : path ≠ "") :
    get_emails_from_file_or_from_stdin args fl sl = fl.map pyStrip := by
  have ht : pyTruthyStr args.input_file = true := by
    rw [hp]
    simpa [pyTruthyStr] using hpne
  unfold get_emails_from_file_or_from_stdin
  rw [ht]
  rfl

theorem get_emails_list_arg (args : Args) (fl sl : List String) (l : List String)
    (hfile : args.input_file = none ∨ args.input_file = some "")
    (hl : args.email_list = some l) (hlne : l ≠ []) :
    get_emails_from_file_or_from_stdin args fl sl = l := by
  have hf : pyTruthyStr args.input_file = false := by
    rcases hfile with h | h <;> simp [h, pyTruthyStr]
  have ht : pyTruthyList args.email_list = true := by
    rw [hl]
    cases l with
    | nil => exact absurd rfl hlne
    | cons a rest => simp [pyTruthyList]
  unfold get_emails_from_file_or_from_stdin
  rw [hf, ht]
  simp [hl]

theorem get_emails_stdin (args : Args) (fl sl : List String)
    (hfile : args.input_file = none ∨ args.input_file = some "")
    (hlist : args.email_list = none ∨ args.email_list = some []) :
    get_emails_from_file_or_from_stdin args fl sl = sl.map pyStrip := by
  have hf : pyTruthyStr args.input_file = false := by
    rcases hfile with h | h <;> simp [h, pyTruthyStr]
  have hl : pyTruthyList args.email_list = false := by
    rcases hlist with h | h <;> simp [h, pyTruthyList]
  unfold get_emails_from_file_or_from_stdin
  rw [hf, hl]
  simp

/-- C7 counterexample: with `-e` present but given zero addresses
(`email_list = some []`), the code falls through to standard input —
refuting \"if the email-list argument is present (with zero or more
addresses), those addresses are used and standard input is never
consulted\". -/
theorem empty_email_list_reads_stdin_cx :
    (⟨none, some []⟩ : Args).email_list = some [] ∧
      get_emails_from_file_or_from_stdin ⟨none, some []⟩ ["f@x.cd"] ["s@t.uv"]
        = ["s@t.uv"] := by
  decide

/-- C7 amended: source selection follows Python truthiness, not mere
presence: a non-empty file path wins; otherwise a *non-empty* address
list is used verbatim; otherwise (both absent, or an empty path, or an
empty list) standard input is read line by line. -/
theorem source_selection_by_truthiness :
    (∀ (args : Args) (fl sl : List String) (path : String),
        args.input_file = some path → path ≠ "" →
        get_emails_from_file_or_from_stdin args fl sl = fl.map pyStrip) ∧
    (∀ (args : Args) (fl sl : List String) (l : List String),
        (args.input_file = none ∨ args.input_file = some "") →
        args.email_list = some l → l ≠ [] →
        get_emails_from_file_or_from_stdin args fl sl = l) ∧
    (∀ (args : Args) (fl sl : List String),
        (args.input_file = none ∨ args.input_file = some "") →
        (args.email_list = none ∨ args.email_list = some []) →
        get_emails_from_file_or_from_stdin args fl sl = sl.map pyStrip) := by
  refine ⟨?_, ?_, ?_⟩
  · intro args fl sl path hp hpne
    exact get_emails_file args fl sl path hp hpne
  · intro args fl sl l hfile hl hlne
    exact get_emails_list_arg args fl sl l hfile hl hlne
  · intro args fl sl hfile hlist
    exact get_emails_stdin args fl sl hfile hlist

/-- C7 witness: the three sources exercised at concrete arguments. -/
theorem source_selection_by_truthiness_witness :
    get_emails_from_file_or_from_stdin ⟨some "f.txt", some ["e@x.co"]⟩
        [" a@b.cd "] ["s@t.uv"] = ["a@b.cd"] ∧
    get_emails_from_file_or_from_stdin ⟨none, some ["e@x.co"]⟩
        [" a@b.cd "] ["s@t.uv"] = ["e@x.co"] ∧
    get_emails_from_file_or_from_stdin ⟨none, none⟩
        [" a@b.cd "] [" s@t.uv"] = ["s@t.uv"] := by
  refine ⟨?_, ?_, ?_⟩
  · exact (source_selection_by_truthiness.1 ⟨some "f.txt", some ["e@x.co"]⟩
      [" a@b.cd "] ["s@t.uv"] "f.txt" rfl (by decide)).trans (by decide)
  · exact source_selection_by_truthiness.2.1 ⟨none, some ["e@x.co"]⟩
      [" a@b.cd "] ["s@t.uv"] ["e@x.co"] (Or.inl rfl) rfl (by decide)
  · exact (source_selection_by_truthiness.2.2 ⟨none, none⟩
      [" a@b.cd "] [" s@t.uv"] (Or.inl rfl) (Or.inl rfl)).trans (by decide)

/-! ## The display loop -/

theorem display_results_ok (results : List Entry)
    (hd : ∀ e ∈ results, (mapEntry e).isSome) :
    display_results results
      = (results.filterMap (fun e => (mapEntry e).map csvLine), true) := by
  induction results with
  | nil => rfl
  | cons e es ih =>
    obtain ⟨row, hrow⟩ := Option.isSome_iff_exists.mp (hd e (List.mem_cons_self _ _))
    have ih' := ih (fun x hx => hd x (List.mem_cons_of_mem _ hx))
    simp [display_results, hrow, ih', List.filterMap_cons]

theorem display_results_abort (good : List Entry) (bad : Entry) (rest : List Entry)
    (hgood : ∀ e ∈ good, (mapEntry e).isSome) (hbad : mapEntry bad = none) :
    display_results (good ++ bad :: rest)
      = (good.filterMap (fun e => (mapEntry e).map csvLine), false) := by
  induction good with
  | nil => simp [display_results, hbad]
  | cons e es ih =>
    obtain ⟨row, hrow⟩ := Option.isSome_iff_exists.mp (hgood e (List.mem_cons_self _ _))
    have ih' := ih (fun x hx => hgood x (List.mem_cons_of_mem _ hx))
    simp [display_results, hrow, ih', List.filterMap_cons]

theorem find?_isSome_of_mem {α : Type} (p : α → Bool) (l : List α) (x : α)
    (hx : x ∈ l) (hp : p x = true) : ∃ y, l.find? p = some y := by
  induction l with
  | nil => cases hx
  | cons a t ih =>
    by_cases pa : p a = true
    · exact ⟨a, by simp [List.find?, pa]⟩
    · rcases List.mem_cons.mp hx with rfl | hx'
      · exact absurd hp pa
      · obtain ⟨y, hy⟩ := ih hx'
        exact ⟨y, by simp [List.find?, Bool.of_not_eq_true pa, hy]⟩

/-! ## Pipeline theorems -/

/-- C4: if any collected address fails the regex, the run stops at the
first offender (`List.find?` returns the first match): exit status 1,
a single diagnostic naming that address, no filter built, no connection
opened, no record output. -/
theorem invalid_email_aborts (args : Args) (fl sl : List String)
    (search : String → Except String (List Entry)) (bad : String)
    (h : (get_emails_from_file_or_from_stdin args fl sl).find?
        (fun e => !emailRegexMatch e) = some bad) :
    runMain args fl sl search
      = ⟨1, [], ["Invalid email address: " ++ bad], false, false, none⟩ := by
  simp [runMain, h]

/-- C4 witness: the second address is malformed; the run aborts naming
it, with no connection and no output. -/
theorem invalid_email_aborts_witness :
    runMain ⟨none, some ["good@ex.com", "bad-address", "x@y.zz"]⟩ [] []
        (fun _ => Except.ok [])
      = ⟨1, [], ["Invalid email address: bad-address"], false, false, none⟩ := by
  exact invalid_email_aborts _ _ _ _ "bad-address" (by decide)

/-- C5 counterexample: a failing search leaves the connection open —
`conn.unbind()` is on the straight-line path after `search_s` and is
skipped when the search raises, refuting \"both when the search succeeds
and when it fails, the connection is unbound\". -/
theorem search_error_skips_unbind_cx :
    (runMain ⟨none, some ["a@ex.co"]⟩ [] []
        (fun _ => Except.error "ldap.SERVER_DOWN")).connOpened = true ∧
    (runMain ⟨none, some ["a@ex.co"]⟩ [] []
        (fun _ => Except.error "ldap.SERVER_DOWN")).unbound = false ∧
    (runMain ⟨none, some ["a@ex.co"]⟩ [] []
        (fun _ => Except.error "ldap.SERVER_DOWN")).exitCode = 1 := by
  decide

/-- C5 amended: the connection is unbound exactly when the search
succeeds; on a search failure the error propagates with exit status 1
and no unbind is executed (the connection is released only by process
termination). -/
theorem unbind_iff_search_ok (args : Args) (fl sl : List String)
    (search : String → Except String (List Entry))
    (hv : (get_emails_from_file_or_from_stdin args fl sl).find?
        (fun e => !emailRegexMatch e) = none) :
    (∀ msg, search (parse_list_of_emails_into_ldap_filter
          (get_emails_from_file_or_from_stdin args fl sl)) = Except.error msg →
        (runMain args fl sl search).unbound = false ∧
        (runMain args fl sl search).exitCode = 1 ∧
        (runMain args fl sl search).stderrLines = [msg]) ∧
    (∀ results, search (parse_list_of_emails_into_ldap_filter
          (get_emails_from_file_or_from_stdin args fl sl)) = Except.ok results →
        (runMain args fl sl search).unbound = true) := by
  constructor
  · intro msg h
    simp [runMain, hv, h]
  · intro results h
    rcases hdisp : display_results results with ⟨rows, ok⟩
    cases ok <;> simp [runMain, hv, h, hdisp]

/-- C5 witness for the amended claim: a successful search is followed by
an unbind. -/
theorem unbind_iff_search_ok_witness :
    (runMain ⟨none, some ["a@ex.co"]⟩ [] []
        (fun _ => Except.ok ([] : List Entry))).unbound = true := by
  exact (unbind_iff_search_ok ⟨none, some ["a@ex.co"]⟩ [] []
    (fun _ => Except.ok ([] : List Entry)) (by decide)).2 [] rfl

/-- C2: with valid addresses, a successful search and cleanly mapping
entries, the exit status is 0, and the reconciliation block is driven
purely by the count comparison: equal counts produce no diagnostics at
all (even if the mail sets differ), while differing counts produce the
warning header plus exactly one missing-address line per requested
address absent from the returned mail values, in request order. -/
theorem reconciliation_count_trigger (emails : List String) (results : List Entry)
    (search : String → Except String (List Entry))
    (hne : emails ≠ [])
    (hv : emails.find? (fun e => !emailRegexMatch e) = none)
    (hs : search (parse_list_of_emails_into_ldap_filter emails) = Except.ok results)
    (hd : ∀ e ∈ results, (mapEntry e).isSome) :
    (runMain ⟨none, some emails⟩ [] [] search).exitCode = 0 ∧
    (results.length = emails.length →
      (runMain ⟨none, some emails⟩ [] [] search).stderrLines = []) ∧
    (results.length ≠ emails.length →
      (runMain ⟨none, some emails⟩ [] [] search).stderrLines =
        "WARNING! Some email addresses were not found in the LDAP database." ::
          (emails.filter (fun e =>
            !(results.filterMap (fun r => r.mail.head?)).contains e)).map
            (fun e => "Missing email address: " ++ e)) := by
  have hcol := get_emails_list_arg ⟨none, some emails⟩ [] [] emails (Or.inl rfl) rfl hne
  have hdisp := display_results_ok results hd
  refine ⟨?_, ?_, ?_⟩
  · simp [runMain, hcol, hv, hs, hdisp]
  · intro h
    simp [runMain, hcol, hv, hs, hdisp, reconcile, h]
  · intro h
    simp [runMain, hcol, hv, hs, hdisp, reconcile, h]

/-- C2 witness: three requests with two entries returned yield the
warning plus one line per absent request, in order; two requests with
two returned entries yield no diagnostics although the mail sets
disagree. -/
theorem reconciliation_count_trigger_witness :
    (runMain ⟨none, some ["a@b.cd", "c@d.ef", "e@f.gh"]⟩ [] []
        (fun _ => Except.ok [⟨["a@b.cd"], ["1 Doe John"], ["jdoe"]⟩,
                             ⟨["zz@q.rs"], ["2 Roe Jane"], ["jroe"]⟩])).stderrLines =
      ["WARNING! Some email addresses were not found in the LDAP database.",
       "Missing email address: c@d.ef", "Missing email address: e@f.gh"] ∧
    (runMain ⟨none, some ["a@b.cd", "c@d.ef"]⟩ [] []
        (fun _ => Except.ok [⟨["a@b.cd"], ["1 Doe John"], ["jdoe"]⟩,
                             ⟨["zz@q.rs"], ["2 Roe Jane"], ["jroe"]⟩])).stderrLines = [] ∧
    (runMain ⟨none, some ["a@b.cd", "c@d.ef"]⟩ [] []
        (fun _ => Except.ok [⟨["a@b.cd"], ["1 Doe John"], ["jdoe"]⟩,
                             ⟨["zz@q.rs"], ["2 Roe Jane"], ["jroe"]⟩])).exitCode = 0 := by
  refine ⟨?_, ?_, ?_⟩
  · exact ((reconciliation_count_trigger ["a@b.cd", "c@d.ef", "e@f.gh"]
      [⟨["a@b.cd"], ["1 Doe John"], ["jdoe"]⟩, ⟨["zz@q.rs"], ["2 Roe Jane"], ["jroe"]⟩]
      _ (by decide) (by decide) rfl (by decide)).2.2 (by decide)).trans (by decide)
  · exact (reconciliation_count_trigger ["a@b.cd", "c@d.ef"]
      [⟨["a@b.cd"], ["1 Doe John"], ["jdoe"]⟩, ⟨["zz@q.rs"], ["2 Roe Jane"], ["jroe"]⟩]
      _ (by decide) (by decide) rfl (by decide)).2.1 (by decide)
  · exact (reconciliation_count_trigger ["a@b.cd", "c@d.ef"]
      [⟨["a@b.cd"], ["1 Doe John"], ["jdoe"]⟩, ⟨["zz@q.rs"], ["2 Roe Jane"], ["jroe"]⟩]
      _ (by decide) (by decide) rfl (by decide)).1

/-- C9: when the first `i` entries map cleanly and entry `i` fails (a
missing attribute or an unsplittable gecos), the run exits with status 1
but the CSV rows for the first `i` entries have already been written to
stdout and remain there. -/
theorem rows_flushed_before_abort (emails : List String) (good : List Entry)
    (bad : Entry) (rest : List Entry)
    (search : String → Except String (List Entry))
    (hne : emails ≠ [])
    (hv : emails.find? (fun e => !emailRegexMatch e) = none)
    (hs : search (parse_list_of_emails_into_ldap_filter emails)
        = Except.ok (good ++ bad :: rest))
    (hgood : ∀ e ∈ good, (mapEntry e).isSome)
    (hbad : mapEntry bad = none) :
    (runMain ⟨none, some emails⟩ [] [] search).exitCode = 1 ∧
    (runMain ⟨none, some emails⟩ [] [] search).stdoutLines
      = good.filterMap (fun e => (mapEntry e).map csvLine) := by
  have hcol := get_emails_list_arg ⟨none, some emails⟩ [] [] emails (Or.inl rfl) rfl hne
  have hdisp := display_results_abort good bad rest hgood hbad
  constructor <;> simp [runMain, hcol, hv, hs, hdisp]

/-- C9 witness: the first entry's row is emitted, then the second entry
(missing `uid`) aborts the run. -/
theorem rows_flushed_before_abort_witness :
    (runMain ⟨none, some ["a@b.cd", "b@c.de"]⟩ [] []
        (fun _ => Except.ok [⟨["a@b.cd"], ["1 Doe John"], ["jdoe"]⟩,
                             ⟨["b@c.de"], ["2 Roe Jane"], []⟩])).exitCode = 1 ∧
    (runMain ⟨none, some ["a@b.cd", "b@c.de"]⟩ [] []
        (fun _ => Except.ok [⟨["a@b.cd"], ["1 Doe John"], ["jdoe"]⟩,
                             ⟨["b@c.de"], ["2 Roe Jane"], []⟩])).stdoutLines
      = ["1,Doe,John,jdoe,a@b.cd"] := by
  have h := rows_flushed_before_abort ["a@b.cd", "b@c.de"]
    [⟨["a@b.cd"], ["1 Doe John"], ["jdoe"]⟩] ⟨["b@c.de"], ["2 Roe Jane"], []⟩ []
    (fun _ => Except.ok [⟨["a@b.cd"], ["1 Doe John"], ["jdoe"]⟩,
                         ⟨["b@c.de"], ["2 Roe Jane"], []⟩])
    (by decide) (by decide) rfl (by decide) (by decide)
  exact ⟨h.1, h.2.trans (by decide)⟩

/-! ## Blank input lines -/

theorem pyStrip_all_space (s : String) (h : s.data.all pyIsSpace = true) :
    pyStrip s = "" := by
  unfold pyStrip
  have h1 : s.data.dropWhile pyIsSpace = [] :=
    List.dropWhile_eq_nil_iff.mpr (fun x hx => List.all_eq_true.mp h x hx)
  rw [h1]
  rfl

theorem runMain_invalid_member (args : Args) (fl sl : List String)
    (search : String → Except String (List Entry)) (x : String)
    (hx : x ∈ get_emails_from_file_or_from_stdin args fl sl)
    (hinv : emailRegexMatch x = false) :
    (runMain args fl sl search).exitCode = 1 := by
  obtain ⟨y, hy⟩ := find?_isSome_of_mem (fun e => !emailRegexMatch e) _ x hx
    (by simp [hinv])
  simp [runMain, hy]

/-- C10: lines from the input file and from stdin are stripped of
leading and trailing whitespace, so a blank or whitespace-only line
becomes the empty string; the empty string fails the address regex; and
a whitespace-only line in either line-based source therefore aborts the
whole run with exit status 1 rather than being skipped. -/
theorem blank_line_aborts :
    (∀ s : String, s.data.all pyIsSpace = true → pyStrip s = "") ∧
    emailRegexMatch "" = false ∧
    (∀ (args : Args) (fl sl : List String)
        (search : String → Except String (List Entry)) (line path : String),
        args.input_file = some path → path ≠ "" → line ∈ fl →
        line.data.all pyIsSpace = true →
        (runMain args fl sl search).exitCode = 1) ∧
    (∀ (args : Args) (fl sl : List String)
        (search : String → Except String (List Entry)) (line : String),
        (args.input_file = none ∨ args.input_file = some "") →
        (args.email_list = none ∨ args.email_list = some []) →
        line ∈ sl → line.data.all pyIsSpace = true →
        (runMain args fl sl search).exitCode = 1) := by
  refine ⟨pyStrip_all_space, by decide, ?_, ?_⟩
  · intro args fl sl search line path hp hpne hmem hws
    have hcol := get_emails_file args fl sl path hp hpne
    have hmem' : pyStrip line ∈ get_emails_from_file_or_from_stdin args fl sl := by
      rw [hcol]
      exact List.mem_map_of_mem pyStrip hmem
    rw [pyStrip_all_space line hws] at hmem'
    exact runMain_invalid_member args fl sl search "" hmem' (by decide)
  · intro args fl sl search line hfile hlist hmem hws
    have hcol := get_emails_stdin args fl sl hfile hlist
    have hmem' : pyStrip line ∈ get_emails_from_file_or_from_stdin args fl sl := by
      rw [hcol]
      exact List.mem_map_of_mem pyStrip hmem
    rw [pyStrip_all_space line hws] at hmem'
    exact runMain_invalid_member args fl sl search "" hmem' (by decide)

/-- C10 witness: a whitespace-only stdin line (and a blank file line)
abort the run with exit status 1. -/
theorem blank_line_aborts_witness :
    pyStrip " \t " = "" ∧
    (runMain ⟨none, none⟩ [] ["   "] (fun _ => Except.ok [])).exitCode = 1 ∧
    (runMain ⟨some "f.txt", none⟩ ["a@b.cd", " "] []
        (fun _ => Except.ok [])).exitCode = 1 := by
  refine ⟨blank_line_aborts.1 " \t " (by decide), ?_, ?_⟩
  · exact blank_line_aborts.2.2.2 ⟨none, none⟩ [] ["   "] _ "   "
      (Or.inl rfl) (Or.inl rfl) (by decide) (by decide)
  · exact blank_line_aborts.2.2.1 ⟨some "f.txt", none⟩ ["a@b.cd", " "] [] _ " " "f.txt"
      rfl (by decide) (by decide) (by decide)

/-- C6 witness for the amended claim: one space is fatal, two spaces are
not. -/
theorem gecosSplit_fatal_iff_witness :
    gecosSplit "a b" = none ∧ gecosSplit "1 Doe John" ≠ none := by
  constructor
  · exact (gecosSplit_fatal_iff "a b").mpr (by decide)
  · intro h
    exact absurd ((gecosSplit_fatal_iff "1 Doe John").mp h) (by decide)

/-- C8 witness for the amended claim: a concrete address accepted via an
explicit shape decomposition. -/
theorem emailRegexMatch_iff_witness : emailRegexMatch "a-b@ex.co" = true := by
  apply (emailRegexMatch_iff "a-b@ex.co").mpr
  exact Or.inl ⟨['a', '-', 'b'], [['e', 'x']], ['c', 'o'],
    by decide, by decide, by decide, by decide, by decide, by decide, by decide, by decide⟩
